import Mathlib

/-!
Verification of the AI-service layer of the TongAI English learning tool
(`geminiService.ts`), shallowly embedded in Lean.

The service code is a thin, effectful shim around a remote text-generation
API.  We embed the pure computational content of each function:

* `cleanJsonResponse` — the markdown-fence-stripping normalizer, modelled
  character-exactly (two global literal replacements followed by a trim).
* `callAi` — the request dispatcher, modelled as a function from its inputs
  (prompt, settings, the `process.env.API_KEY` value, and whether a schema
  was supplied) to the *first externally visible action* it performs: a
  configuration error, an HTTP POST on the OpenAI-compatible path, or a
  native-provider call.  The code performs no observable action before this
  decision, so the dispatch value fully captures the routing behaviour.
* `JSON.parse` — modelled by an executable recursive-descent parser
  (`jsonParse`) for the JSON grammar, with parse failure as `none`.
* the fetch wrappers (`fetchWordPairs`, `fetchContextQuestions`,
  `fetchGrammarData`) — modelled as functions of the raw response text the
  dispatcher returned, producing `Except` values (a thrown JS exception is
  an `Except.error`).

Strings are modelled by Lean `String` (a packed `List Char`), and all string
operations used by the code are re-implemented on `List Char` with
JavaScript semantics (global non-overlapping left-to-right replacement,
`trim`, `||` on strings with `""` falsy, `startsWith`, `endsWith`,
`slice(0, -1)`).
-/

/-- The backtick character, recovered from a string literal. -/
def tick : Char := ("`".data).getD 0 ' '

/-- The bare code-fence marker, three backticks (the literal of the second
regex in `cleanJsonResponse`). -/
def fence : List Char := "```".data

/-- The json-tagged opening fence marker (the literal of the first regex in
`cleanJsonResponse`). -/
def fenceJson : List Char := "```json".data

/-- Whitespace predicate used to model JavaScript `String.prototype.trim`
(restricted to the common ASCII whitespace characters). -/
def isWS (c : Char) : Bool :=
  c = ' ' || c = '\t' || c = '\n' || c = '\r' || c = '\x0b' || c = '\x0c'

/-- JavaScript `trim`: drop whitespace from both ends. -/
def trimList (s : List Char) : List Char :=
  ((s.dropWhile isWS).reverse.dropWhile isWS).reverse

/-- Left-to-right scan deleting every non-overlapping occurrence of `pat`,
exactly the semantics of JavaScript `text.replace(/pat/g, '')` for a
literal pattern.  The `Nat` argument counts characters still to be skipped
from a match already consumed. -/
def fenceScan (pat : List Char) : Nat → List Char → List Char
  | _, [] => []
  | k + 1, _ :: rest => fenceScan pat k rest
  | 0, c :: rest =>
    if pat.isPrefixOf (c :: rest) then fenceScan pat (pat.length - 1) rest
    else c :: fenceScan pat 0 rest

/-- JavaScript `text.replace(/pat/g, '')` for a literal pattern `pat`. -/
def removeAll (pat s : List Char) : List Char := fenceScan pat 0 s

/-- `geminiService.ts`, `cleanJsonResponse`:
`text.replace(/```json/g, '').replace(/```/g, '').trim()`. -/
def cleanJsonResponse (text : String) : String :=
  ⟨trimList (removeAll fence (removeAll fenceJson text.data))⟩

/-- JavaScript `trim` on `String`. -/
def jsTrimS (s : String) : String := ⟨trimList s.data⟩

/-- JavaScript `a || b` for strings (the empty string is falsy). -/
def jsOr (a b : String) : String := if a = "" then b else a

/-- JavaScript `a || b` where `b` may be `undefined` (modelled `none`);
an `undefined` result collapses to the empty string at the next `|| ''`. -/
def jsOrOpt (a : String) (b : Option String) : String :=
  if a = "" then (match b with | none => "" | some k => k) else a

/-- JavaScript `pre.startsWith` test. -/
def jsStartsWith (s pre : String) : Bool := pre.data.isPrefixOf s.data

/-- JavaScript `endsWith` test. -/
def jsEndsWith (s suf : String) : Bool := suf.data.isSuffixOf s.data

/-- JavaScript `s.slice(0, -1)`: the string without its last character. -/
def jsDropLast (s : String) : String := ⟨s.data.dropLast⟩

/-! ## JSON values and `JSON.parse` -/

/-- JSON values as produced by `JSON.parse`.  Numeric literals are kept as
their source text (no numeric program logic inspects them). -/
inductive Json where
  | null
  | bool (b : Bool)
  | num (lit : String)
  | str (s : String)
  | arr (elems : List Json)
  | obj (members : List (String × Json))

/-- JSON whitespace (exactly the four characters of the JSON grammar). -/
def isJsonWS (c : Char) : Bool := c = ' ' || c = '\t' || c = '\n' || c = '\r'

/-- Skip JSON whitespace. -/
def skipWS (s : List Char) : List Char := s.dropWhile isJsonWS

/-- Digit test for the JSON number grammar. -/
def isDigitC (c : Char) : Bool := '0' ≤ c && c ≤ '9'

/-- Hex-digit test for `\u` escapes. -/
def isHexC (c : Char) : Bool :=
  isDigitC c || ('a' ≤ c && c ≤ 'f') || ('A' ≤ c && c ≤ 'F')

/-- Value of a hex digit. -/
def hexVal (c : Char) : Nat :=
  if isDigitC c then c.toNat - '0'.toNat
  else if 'a' ≤ c && c ≤ 'f' then c.toNat - 'a'.toNat + 10
  else c.toNat - 'A'.toNat + 10

/-- Parse the body of a JSON string after the opening quote, handling the
escape sequences of the JSON grammar.  (Lone `\u` surrogates map to the
default character rather than a lone surrogate code unit; no datum in this
development depends on that corner.) -/
def pString (acc : List Char) : List Char → Option (String × List Char)
  | [] => none
  | c :: rest =>
    if c = '"' then some (⟨acc.reverse⟩, rest)
    else if c = '\\' then
      match rest with
      | [] => none
      | e :: rest2 =>
        if e = '"' then pString ('"' :: acc) rest2
        else if e = '\\' then pString ('\\' :: acc) rest2
        else if e = '/' then pString ('/' :: acc) rest2
        else if e = 'b' then pString ('\x08' :: acc) rest2
        else if e = 'f' then pString ('\x0c' :: acc) rest2
        else if e = 'n' then pString ('\n' :: acc) rest2
        else if e = 'r' then pString ('\r' :: acc) rest2
        else if e = 't' then pString ('\t' :: acc) rest2
        else if e = 'u' then
          match rest2 with
          | h1 :: h2 :: h3 :: h4 :: rest3 =>
            if isHexC h1 && isHexC h2 && isHexC h3 && isHexC h4 then
              pString
                (Char.ofNat
                  (((hexVal h1 * 16 + hexVal h2) * 16 + hexVal h3) * 16 + hexVal h4)
                  :: acc) rest3
            else none
          | _ => none
        else none
    else if c.toNat < 0x20 then none
    else pString (c :: acc) rest

/-- One-or-more digits. -/
def pDigits (s : List Char) : Option (List Char × List Char) :=
  let ds := s.takeWhile isDigitC
  if ds = [] then none else some (ds, s.drop ds.length)

/-- JSON integer part: `0`, or a nonzero digit followed by digits. -/
def pIntPart (s : List Char) : Option (List Char × List Char) :=
  match s with
  | [] => none
  | c :: r =>
    if c = '0' then some (['0'], r)
    else if isDigitC c then pDigits (c :: r)
    else none

/-- Optional JSON fraction part. -/
def pFracPart (s : List Char) : Option (List Char × List Char) :=
  match s with
  | '.' :: r =>
    match pDigits r with
    | some (ds, r2) => some ('.' :: ds, r2)
    | none => none
  | _ => some ([], s)

/-- Optional JSON exponent part. -/
def pExpPart (s : List Char) : Option (List Char × List Char) :=
  match s with
  | c :: r =>
    if c = 'e' || c = 'E' then
      let signAndRest : List Char × List Char :=
        match r with
        | '+' :: rr => (['+'], rr)
        | '-' :: rr => (['-'], rr)
        | _ => ([], r)
      match pDigits signAndRest.2 with
      | some (ds, r3) => some (c :: (signAndRest.1 ++ ds), r3)
      | none => none
    else some ([], s)
  | [] => some ([], s)

/-- A complete JSON number literal. -/
def pNumber (s : List Char) : Option (List Char × List Char) :=
  let signAndRest : List Char × List Char :=
    match s with
    | '-' :: r => (['-'], r)
    | _ => ([], s)
  match pIntPart signAndRest.2 with
  | none => none
  | some (ip, s2) =>
    match pFracPart s2 with
    | none => none
    | some (fp, s3) =>
      match pExpPart s3 with
      | none => none
      | some (ep, s4) => some (signAndRest.1 ++ ip ++ fp ++ ep, s4)

/-- Match a literal keyword tail. -/
def stripLit (pat s : List Char) : Option (List Char) :=
  if pat.isPrefixOf s then some (s.drop pat.length) else none

/-- Parser modes: a single value, the elements of a non-empty array, or the
members of a non-empty object. -/
inductive PMode where
  | val
  | elems
  | members

/-- Parser results for the three modes. -/
inductive POut where
  | v (j : Json)
  | vs (l : List Json)
  | ms (l : List (String × Json))

/-- The recursive-descent core of `JSON.parse`, fuelled so that the
recursion is structural (hence kernel-reducible).  In `val` mode the input
is expected to start at a value (leading whitespace already skipped). -/
def pRun : Nat → PMode → List Char → Option (POut × List Char)
  | 0, _, _ => none
  | f + 1, .val, s =>
    match s with
    | [] => none
    | c :: rest =>
      if c = '{' then
        match skipWS rest with
        | '}' :: r => some (.v (.obj []), r)
        | s1 =>
          match pRun f .members s1 with
          | some (.ms l, r) => some (.v (.obj l), r)
          | _ => none
      else if c = '[' then
        match skipWS rest with
        | ']' :: r => some (.v (.arr []), r)
        | s1 =>
          match pRun f .elems s1 with
          | some (.vs l, r) => some (.v (.arr l), r)
          | _ => none
      else if c = '"' then
        match pString [] rest with
        | some (str, r) => some (.v (.str str), r)
        | none => none
      else if c = 't' then
        match stripLit "rue".data rest with
        | some r => some (.v (.bool true), r)
        | none => none
      else if c = 'f' then
        match stripLit "alse".data rest with
        | some r => some (.v (.bool false), r)
        | none => none
      else if c = 'n' then
        match stripLit "ull".data rest with
        | some r => some (.v .null, r)
        | none => none
      else if c = '-' || isDigitC c then
        match pNumber (c :: rest) with
        | some (lit, r) => some (.v (.num ⟨lit⟩), r)
        | none => none
      else none
  | f + 1, .elems, s =>
    match pRun f .val (skipWS s) with
    | some (.v j, r) =>
      (match skipWS r with
       | ']' :: r2 => some (.vs [j], r2)
       | ',' :: r2 =>
         match pRun f .elems r2 with
         | some (.vs l, r3) => some (.vs (j :: l), r3)
         | _ => none
       | _ => none)
    | _ => none
  | f + 1, .members, s =>
    match skipWS s with
    | '"' :: r =>
      (match pString [] r with
       | some (key, r2) =>
         (match skipWS r2 with
          | ':' :: r3 =>
            (match pRun f .val (skipWS r3) with
             | some (.v j, r4) =>
               (match skipWS r4 with
                | '}' :: r5 => some (.ms [(key, j)], r5)
                | ',' :: r5 =>
                  match pRun f .members r5 with
                  | some (.ms l, r6) => some (.ms ((key, j) :: l), r6)
                  | _ => none
                | _ => none)
             | _ => none)
          | _ => none)
       | none => none)
    | _ => none

/-- `JSON.parse`: parse a complete JSON text, `none` on any syntax error.
The fuel `2 * length + 4` dominates the recursion depth (every two nested
calls consume at least one input character). -/
def jsonParse (text : String) : Option Json :=
  match pRun (2 * text.data.length + 4) .val (skipWS text.data) with
  | some (.v j, r) => if skipWS r = [] then some j else none
  | _ => none

/-! ## Data model and JavaScript runtime behaviour of field access -/

/-- JavaScript property read `j.key` on a `JSON.parse` result, for values on
which it does not throw: an object yields its last binding for the key
(later duplicate keys win in `JSON.parse`), anything else yields
`undefined` (`none`).  Reading a property of `null` throws instead and is
handled separately at the call site. -/
def getField (j : Json) (key : String) : Option Json :=
  match j with
  | .obj members => members.foldl (fun acc kv => if kv.1 = key then some kv.2 else acc) none
  | _ => none

/-- A `WordPair` record as actually built at runtime by `fetchWordPairs`:
`id` is synthesized, `en` and `cn` are whatever property reads on the
parsed element produced (`none` models JavaScript `undefined`). -/
structure WordPair where
  id : String
  en : Option Json
  cn : Option Json

/-- The two kinds of exception the response-processing code can throw:
a `JSON.parse` syntax error, or a `TypeError` (calling `.map` on a
non-array / reading a property of `null`). -/
inductive JsError where
  | parseError
  | typeError
deriving DecidableEq

/-! ## The request dispatcher `callAi` -/

/-- The settings bundle (`types.ts`, `AppSettings`).  The visual theme is
kept as a plain string. -/
structure AppSettings where
  baseUrl : String
  customApiKey : String
  modelName : String
  allowInflection : Bool
  theme : String
  aeroOpacity : Nat
  wordPracticeCount : Nat
  grammarPracticeCount : Nat

/-- `geminiService.ts` line 10: the credential actually used,
`settings.customApiKey || process.env.API_KEY || ''`.  The environment
variable may be `undefined` (`none`). -/
def effectiveApiKey (s : AppSettings) (env : Option String) : String :=
  jsOr (jsOrOpt s.customApiKey env) ""

/-- The fixed configuration-error message thrown when no credential is
configured (`geminiService.ts` line 11). -/
def configErrMsg : String := "API Key 未配置，请在设置中填写。"

/-- The instruction appended to the prompt on the OpenAI-compatible path
when a structured schema was requested (`geminiService.ts` lines 20-22). -/
def jsonInstruction : String := "\n\n重要：请务必返回合法的 JSON 格式数据，不要包含任何解释文字。"

/-- `geminiService.ts` lines 16-18: the request URL of the
OpenAI-compatible path.  An empty configured base URL falls back to the
default, one trailing slash is sliced off, then the fixed path is
appended. -/
def requestUrl (baseUrl : String) : String :=
  let b := jsOr baseUrl "https://api.openai.com"
  let cleanBaseUrl := if jsEndsWith b "/" then jsDropLast b else b
  cleanBaseUrl ++ "/v1/chat/completions"

/-- The first externally visible action of `callAi`: fail with the
configuration error, issue the single HTTP POST of the OpenAI-compatible
branch, or invoke the native provider.  The code performs exactly one of
these, so the dispatcher is a total function into this type. -/
inductive Dispatch where
  | configError (msg : String)
  | openaiPost (url : String) (bearerKey : String) (model : String)
      (content : String) (jsonFormat : Bool)
  | nativeCall (model : String) (contents : String) (jsonSchema : Bool)

/-- Whether the dispatch is the native-provider call. -/
def Dispatch.isNative : Dispatch → Bool
  | .nativeCall .. => true
  | _ => false

/-- Whether the dispatch is the HTTP POST of the OpenAI-compatible path. -/
def Dispatch.isPost : Dispatch → Bool
  | .openaiPost .. => true
  | _ => false

/-- `geminiService.ts` lines 9-57, `callAi`, up to its first externally
visible action.  `hasSchema` models truthiness of the optional `schema`
argument; `env` models `process.env.API_KEY`. -/
def callAiRoute (prompt : String) (s : AppSettings) (env : Option String)
    (hasSchema : Bool) : Dispatch :=
  let apiKey := effectiveApiKey s env
  if apiKey = "" then .configError configErrMsg
  else if jsStartsWith apiKey "sk-" then
    .openaiPost (requestUrl s.baseUrl) apiKey s.modelName
      (if hasSchema then prompt ++ jsonInstruction else prompt) hasSchema
  else
    .nativeCall (jsOr s.modelName "gemini-3-flash-preview") prompt hasSchema

/-- `geminiService.ts` lines 38-41: the message of the error thrown on a
non-success HTTP status.  `parsed` abstracts the outcome of
`response.json()`: `none` if the body is unparseable, `some em` if it
parsed with `em` the value reached by `err.error?.message` (`none` when the
path is absent or not a string).  The code is
`err = await response.json().catch(() => (error.message = HTTP status));`
`throw new Error(err.error?.message || "请求失败: " + status)`. -/
def httpFailMsg (status : Nat) (parsed : Option (Option String)) : String :=
  let errMessage : Option String :=
    match parsed with
    | none => some ("HTTP " ++ Nat.repr status)
    | some em => em
  match errMessage with
  | some m => if m = "" then "请求失败: " ++ Nat.repr status else m
  | none => "请求失败: " ++ Nat.repr status

/-- `geminiService.ts` line 56: the value returned on the native path,
`response.text?.trim() || ''`, where the provider's `text` field may be
absent (`none`). -/
def nativeText (respText : Option String) : String :=
  match respText with
  | none => ""
  | some t => jsOr (jsTrimS t) ""

/-! ## The fetch wrappers -/

/-- `geminiService.ts` lines 79-83: `rawPairs.map((p, i) => (...))` with
`id` synthesized from the element index and the `Date.now()` timestamp.
Reading `p.en` throws a `TypeError` when `p` is `null`; every other parsed
element yields a record.  `i` is the index of the first element. -/
def buildPairs (now : Nat) (i : Nat) : List Json → Except JsError (List WordPair)
  | [] => .ok []
  | p :: rest =>
    match p with
    | .null => .error .typeError
    | _ =>
      match buildPairs now (i + 1) rest with
      | .error e => .error e
      | .ok tl =>
        .ok ({ id := Nat.repr i ++ "-" ++ Nat.repr now,
               en := getField p "en", cn := getField p "cn" } :: tl)

/-- `geminiService.ts` lines 60-84, `fetchWordPairs`, from the raw response
text returned by `callAi` (the network stage is the oracle input `text`;
`now` is the `Date.now()` timestamp).  A non-array parse result makes
`rawPairs.map` throw a `TypeError`. -/
def fetchWordPairs (text : String) (now : Nat) : Except JsError (List WordPair) :=
  let jsonStr := cleanJsonResponse (jsOr text "[]")
  match jsonParse jsonStr with
  | none => .error .parseError
  | some (.arr elems) => buildPairs now 0 elems
  | some _ => .error .typeError

/-- `geminiService.ts` lines 86-110, `fetchContextQuestions`, response
processing: the parsed value is returned as-is (the `as ContextQuestion`
cast has no runtime content). -/
def fetchContextQuestions (text : String) : Except JsError Json :=
  match jsonParse (cleanJsonResponse (jsOr text "[]")) with
  | none => .error .parseError
  | some j => .ok j

/-- `geminiService.ts` lines 112-170, `fetchGrammarData`, response
processing: like `fetchContextQuestions` but with `'{}'` substituted for an
empty response. -/
def fetchGrammarData (text : String) : Except JsError Json :=
  match jsonParse (cleanJsonResponse (jsOr text "\x7b\x7d")) with
  | none => .error .parseError
  | some j => .ok j

/-- The spec-side description of `fetchWordPairs`' successful output: one
record per parsed element, in order, `en`/`cn` copied unchanged, and `id`
synthesized from the element index and the timestamp. -/
def specWordPairs (now : Nat) (i : Nat) : List Json → List WordPair
  | [] => []
  | p :: rest =>
    { id := Nat.repr i ++ "-" ++ Nat.repr now,
      en := getField p "en", cn := getField p "cn" } :: specWordPairs now (i + 1) rest

/-! ## Lemmas about the fence-stripping scan -/

/-- `fence` is three backticks. -/
theorem fence_def : fence = [tick, tick, tick] := rfl

/-- `fence` is a prefix of `fenceJson`. -/
theorem fence_prefix_fenceJson : fence <+: fenceJson := ⟨"json".data, rfl⟩

/-- The scan of the empty input is empty. -/
theorem fenceScan_nil (pat : List Char) : ∀ k, fenceScan pat k [] = []
  | 0 => rfl
  | _ + 1 => rfl

/-- Unfolding of the scan at skip state `0`. -/
theorem fenceScan_zero_cons (pat : List Char) (c : Char) (l : List Char) :
    fenceScan pat 0 (c :: l) =
      if pat.isPrefixOf (c :: l) then fenceScan pat (pat.length - 1) l
      else c :: fenceScan pat 0 l := rfl

/-- Skipping exactly the characters of `a` lands the scan at `t`. -/
theorem fenceScan_skip_len (pat : List Char) :
    ∀ (a t : List Char), fenceScan pat a.length (a ++ t) = fenceScan pat 0 t
  | [], _ => rfl
  | _ :: a, t => fenceScan_skip_len pat a t

/-- The scan deletes a match sitting at the head of the input. -/
theorem removeAll_consume (p : Char) (pt t : List Char) :
    removeAll (p :: pt) ((p :: pt) ++ t) = removeAll (p :: pt) t := by
  have hpre : (p :: pt).isPrefixOf (p :: (pt ++ t)) = true :=
    List.isPrefixOf_iff_prefix.mpr (List.prefix_append (p :: pt) t)
  show fenceScan (p :: pt) 0 (p :: (pt ++ t)) = fenceScan (p :: pt) 0 t
  rw [fenceScan_zero_cons, if_pos hpre]
  simpa using fenceScan_skip_len (p :: pt) pt t

/-- A prefix of `a ++ c :: b` either stays inside `a` or contains `c`. -/
theorem prefix_append_cons :
    ∀ (pat a : List Char) (c : Char) (b : List Char),
      pat <+: a ++ c :: b → pat <+: a ∨ c ∈ pat := by
  intro pat a
  induction a generalizing pat with
  | nil =>
    intro c b h
    cases pat with
    | nil => exact Or.inl List.nil_prefix
    | cons p pt =>
      rw [List.nil_append, List.cons_prefix_cons] at h
      rcases h with ⟨h1, -⟩
      subst h1
      exact Or.inr (List.mem_cons_self _ _)
  | cons x a' ih =>
    intro c b h
    cases pat with
    | nil => exact Or.inl List.nil_prefix
    | cons p pt =>
      rw [List.cons_append, List.cons_prefix_cons] at h
      obtain ⟨rfl, h2⟩ := h
      rcases ih pt c b h2 with h3 | h3
      · exact Or.inl (List.cons_prefix_cons.mpr ⟨rfl, h3⟩)
      · exact Or.inr (List.mem_cons_of_mem _ h3)

/-- The scan is the identity on inputs containing no occurrence of the
pattern. -/
theorem removeAll_of_none_within :
    ∀ {pat s : List Char}, ¬ pat <:+: s → removeAll pat s = s := by
  intro pat s
  induction s with
  | nil => intro _; rfl
  | cons c rest ih =>
    intro h
    have hnp : ¬ (pat.isPrefixOf (c :: rest) = true) := fun hc =>
      h (List.isPrefixOf_iff_prefix.mp hc).isInfix
    show fenceScan pat 0 (c :: rest) = c :: rest
    rw [fenceScan_zero_cons, if_neg hnp]
    exact congrArg (c :: ·) (ih fun hi => h (List.infix_cons hi))

/-- The scan distributes over an append at a separator character that does
not occur in the pattern, provided the pattern never matches inside the
left part. -/
theorem removeAll_append_sep {pat : List Char} {c0 : Char} (hc : c0 ∉ pat) :
    ∀ {s : List Char}, ¬ pat <:+: s →
      ∀ t, removeAll pat (s ++ c0 :: t) = s ++ removeAll pat (c0 :: t) := by
  intro s
  induction s with
  | nil => intro _ t; rfl
  | cons x s' ih =>
    intro h t
    have hnp : ¬ (pat.isPrefixOf (x :: (s' ++ c0 :: t)) = true) := by
      intro hc2
      have hpre : pat <+: (x :: s') ++ c0 :: t := List.isPrefixOf_iff_prefix.mp hc2
      rcases prefix_append_cons pat (x :: s') c0 t hpre with h3 | h3
      · exact h h3.isInfix
      · exact hc h3
    show fenceScan pat 0 (x :: (s' ++ c0 :: t)) = x :: (s' ++ removeAll pat (c0 :: t))
    rw [fenceScan_zero_cons, if_neg hnp]
    exact congrArg (x :: ·) (ih (fun hi => h (List.infix_cons hi)) t)

/-- If the input does not start with a backtick, neither does the scan's
output. -/
theorem head_fenceScan_ne_tick {s : List Char}
    (h : ∀ x, s.head? = some x → x ≠ tick) :
    ∀ y, (fenceScan fence 0 s).head? = some y → y ≠ tick := by
  cases s with
  | nil =>
    intro y hy
    exact absurd hy (by simp [show fenceScan fence 0 ([] : List Char) = [] from rfl])
  | cons c rest =>
    intro y hy
    have hc : c ≠ tick := h c rfl
    have hnp : ¬ (fence.isPrefixOf (c :: rest) = true) := by
      intro hp
      have h2 := List.isPrefixOf_iff_prefix.mp hp
      rw [fence_def, List.cons_prefix_cons] at h2
      exact hc h2.1.symm
    rw [fenceScan_zero_cons, if_neg hnp] at hy
    simp only [List.head?_cons, Option.some.injEq] at hy
    subst hy
    exact hc

/-- If the input does not start with two backticks, neither does the scan's
output. -/
theorem not_two_ticks_fenceScan {s : List Char}
    (h : ¬ [tick, tick] <+: s) : ¬ [tick, tick] <+: fenceScan fence 0 s := by
  cases s with
  | nil =>
    intro hp
    rw [show fenceScan fence 0 ([] : List Char) = [] from rfl, List.prefix_nil] at hp
    exact absurd hp (by simp)
  | cons x r =>
    by_cases hx : x = tick
    · subst hx
      have hr : ∀ z, r.head? = some z → z ≠ tick := by
        intro z hz hzt
        apply h
        cases r with
        | nil => simp at hz
        | cons z' r2 =>
          simp only [List.head?_cons, Option.some.injEq] at hz
          subst hz
          subst hzt
          exact List.cons_prefix_cons.mpr ⟨rfl, List.cons_prefix_cons.mpr ⟨rfl, List.nil_prefix⟩⟩
      have hnp : ¬ (fence.isPrefixOf (tick :: r) = true) := by
        intro hp
        have h2 := List.isPrefixOf_iff_prefix.mp hp
        rw [fence_def, List.cons_prefix_cons] at h2
        rcases h2 with ⟨-, h3⟩
        cases r with
        | nil => rw [List.prefix_nil] at h3; exact absurd h3 (by simp)
        | cons z r2 =>
          rw [List.cons_prefix_cons] at h3
          exact hr z rfl h3.1.symm
      intro hp
      rw [fenceScan_zero_cons, if_neg hnp, List.cons_prefix_cons] at hp
      rcases hp with ⟨-, hp2⟩
      cases hfs : fenceScan fence 0 r with
      | nil => rw [hfs, List.prefix_nil] at hp2; exact absurd hp2 (by simp)
      | cons w ws =>
        rw [hfs, List.cons_prefix_cons] at hp2
        exact head_fenceScan_ne_tick hr w (by rw [hfs]; rfl) hp2.1.symm
    · have hnp : ¬ (fence.isPrefixOf (x :: r) = true) := by
        intro hp
        have h2 := List.isPrefixOf_iff_prefix.mp hp
        rw [fence_def, List.cons_prefix_cons] at h2
        exact hx h2.1.symm
      intro hp
      rw [fenceScan_zero_cons, if_neg hnp, List.cons_prefix_cons] at hp
      exact hx hp.1.symm

/-- If the pattern did not match at the head, the emitted character cannot
start a fence in the output. -/
theorem not_fence_prefix_cons_fenceScan {c : Char} {rest : List Char}
    (hnm : ¬ (fence.isPrefixOf (c :: rest) = true)) :
    ¬ fence <+: (c :: fenceScan fence 0 rest) := by
  by_cases hc : c = tick
  · subst hc
    have h2 : ¬ [tick, tick] <+: rest := by
      intro hp
      exact hnm (List.isPrefixOf_iff_prefix.mpr
        (by rw [fence_def]; exact List.cons_prefix_cons.mpr ⟨rfl, hp⟩))
    intro hp
    rw [fence_def, List.cons_prefix_cons] at hp
    exact not_two_ticks_fenceScan h2 hp.2
  · intro hp
    rw [fence_def, List.cons_prefix_cons] at hp
    exact hc hp.1.symm

/-- Key structural fact: after one pass of the bare-fence scan, no three
consecutive backticks remain anywhere in the output, whatever the skip
state. -/
theorem fenceScan_no_fence :
    ∀ (s : List Char) (k : Nat), ¬ fence <:+: fenceScan fence k s := by
  intro s
  induction s with
  | nil =>
    intro k hp
    have h0 := List.eq_nil_of_infix_nil (by simpa [fenceScan_nil] using hp)
    exact absurd h0 (by decide)
  | cons c rest ih =>
    intro k
    cases k with
    | succ j => exact ih j
    | zero =>
      by_cases hm : fence.isPrefixOf (c :: rest) = true
      · rw [fenceScan_zero_cons, if_pos hm]
        exact ih (fence.length - 1)
      · rw [fenceScan_zero_cons, if_neg hm]
        intro hi
        rcases List.infix_cons_iff.mp hi with hpre | hinf
        · exact not_fence_prefix_cons_fenceScan hm hpre
        · exact ih 0 hinf

/-- No occurrence of the bare fence implies no occurrence of the tagged
fence. -/
theorem fenceJson_none_within {s : List Char} (h : ¬ fence <:+: s) :
    ¬ fenceJson <:+: s :=
  fun hj => h (List.IsInfix.trans fence_prefix_fenceJson.isInfix hj)

/-! ## Lemmas about the trim -/

/-- The head of a `dropWhile` result fails the predicate. -/
theorem head_dropWhile_false {p : Char → Bool} :
    ∀ {l : List Char} {x : Char}, (l.dropWhile p).head? = some x → p x = false := by
  intro l
  induction l with
  | nil => intro x hx; simp at hx
  | cons c rest ih =>
    intro x hx
    rw [List.dropWhile_cons] at hx
    by_cases hc : p c = true
    · rw [if_pos hc] at hx; exact ih hx
    · rw [if_neg hc] at hx
      simp only [List.head?_cons, Option.some.injEq] at hx
      subst hx
      simpa [Bool.not_eq_true] using hc

/-- `dropWhile` is the identity when the head already fails the predicate. -/
theorem dropWhile_eq_self_of_head {p : Char → Bool} {l : List Char}
    (h : ∀ x, l.head? = some x → p x = false) : l.dropWhile p = l := by
  cases l with
  | nil => rfl
  | cons c rest =>
    rw [List.dropWhile_cons, if_neg]
    simp [h c rfl]

/-- A nonempty suffix determines the last element. -/
theorem getLast_of_suffix {l₁ l₂ : List Char} (h : l₁ <:+ l₂) (hne : l₁ ≠ []) :
    l₂.getLast? = l₁.getLast? := by
  obtain ⟨pre, rfl⟩ := h
  rw [List.getLast?_append]
  cases hl : l₁.getLast? with
  | none => exact absurd (List.getLast?_eq_none_iff.mp hl) hne
  | some y => rfl

/-- The trim removes a leading whitespace character. -/
theorem trimList_cons_ws {c : Char} (hc : isWS c = true) (l : List Char) :
    trimList (c :: l) = trimList l := by
  unfold trimList
  rw [List.dropWhile_cons, if_pos hc]

/-- The trim removes a trailing whitespace character. -/
theorem trimList_append_ws {c : Char} (hc : isWS c = true) (l : List Char) :
    trimList (l ++ [c]) = trimList l := by
  unfold trimList
  rw [List.dropWhile_append]
  by_cases he : (l.dropWhile isWS).isEmpty = true
  · rw [if_pos he]
    have hl : l.dropWhile isWS = [] := by simpa [List.isEmpty_iff] using he
    have hc1 : List.dropWhile isWS [c] = [] := by
      rw [show ([c] : List Char) = c :: [] from rfl, List.dropWhile_cons, if_pos hc]
      rfl
    rw [hl, hc1]
  · rw [if_neg he, List.reverse_append]
    simp only [List.reverse_cons, List.reverse_nil, List.nil_append, List.singleton_append]
    rw [List.dropWhile_cons, if_pos hc]

/-- The trim is idempotent. -/
theorem trimList_idem (l : List Char) : trimList (trimList l) = trimList l := by
  have hcHead : ∀ x, ((l.dropWhile isWS).reverse.dropWhile isWS).head? = some x →
      isWS x = false := fun _ hx => head_dropWhile_false hx
  have hcrHead : ∀ x,
      (((l.dropWhile isWS).reverse.dropWhile isWS).reverse).head? = some x →
      isWS x = false := by
    intro x hx
    rw [List.head?_reverse] at hx
    have hcne : (l.dropWhile isWS).reverse.dropWhile isWS ≠ [] := by
      intro h0
      rw [h0] at hx
      simp at hx
    have hsuf := getLast_of_suffix
      (List.dropWhile_suffix (l := (l.dropWhile isWS).reverse) isWS) hcne
    have h1 : ((l.dropWhile isWS).reverse).getLast? = some x := by rw [hsuf]; exact hx
    rw [List.getLast?_reverse] at h1
    exact head_dropWhile_false h1
  show trimList (((l.dropWhile isWS).reverse.dropWhile isWS).reverse) = trimList l
  unfold trimList
  rw [dropWhile_eq_self_of_head hcrHead, List.reverse_reverse,
    dropWhile_eq_self_of_head hcHead]

/-- The trim of a list is an infix of it. -/
theorem trimList_within (l : List Char) : trimList l <:+: l := by
  have h1 : l.dropWhile isWS <:+ l := List.dropWhile_suffix isWS
  have h2 : (l.dropWhile isWS).reverse.dropWhile isWS <:+ (l.dropWhile isWS).reverse :=
    List.dropWhile_suffix isWS
  have h3 : trimList l <+: l.dropWhile isWS := by
    have h4 := List.reverse_prefix.mpr h2
    rw [List.reverse_reverse] at h4
    exact h4
  exact h3.isInfix.trans h1.isInfix

/-! ## Lemmas about the composed normalizer -/

/-- The character data of the normalizer's output. -/
theorem clean_data (s : String) :
    (cleanJsonResponse s).data = trimList (removeAll fence (removeAll fenceJson s.data)) :=
  rfl

/-- After normalization no fence marker remains anywhere in the output. -/
theorem clean_no_fence (s : String) : ¬ fence <:+: (cleanJsonResponse s).data := by
  rw [clean_data]
  intro h
  exact fenceScan_no_fence (removeAll fenceJson s.data) 0
    (h.trans (trimList_within _))

/-- The normalizer's output is already trimmed. -/
theorem clean_trimmed (s : String) :
    trimList (cleanJsonResponse s).data = (cleanJsonResponse s).data := by
  rw [clean_data]
  exact trimList_idem _

/-- Head-match deletion for any nonempty pattern. -/
theorem removeAll_consume_ne {pat : List Char} (hne : pat ≠ []) (t : List Char) :
    removeAll pat (pat ++ t) = removeAll pat t := by
  cases pat with
  | nil => exact absurd rfl hne
  | cons p pt => exact removeAll_consume p pt t

/-- Scan step when the pattern does not match at the head. -/
theorem removeAll_cons_noMatch {pat : List Char} {c : Char} {l : List Char}
    (h : ¬ (pat.isPrefixOf (c :: l) = true)) :
    removeAll pat (c :: l) = c :: removeAll pat l := by
  show fenceScan pat 0 (c :: l) = c :: fenceScan pat 0 l
  rw [fenceScan_zero_cons, if_neg h]

/-- The tagged fence never matches at a newline. -/
theorem fenceJson_noMatch_newline (l : List Char) :
    ¬ (fenceJson.isPrefixOf ('\n' :: l) = true) := by
  intro h
  have h2 := List.isPrefixOf_iff_prefix.mp h
  rw [show fenceJson = tick :: tick :: tick :: "json".data from rfl,
    List.cons_prefix_cons] at h2
  exact absurd h2.1 (by decide)

/-- The bare fence never matches at a newline. -/
theorem fence_noMatch_newline (l : List Char) :
    ¬ (fence.isPrefixOf ('\n' :: l) = true) := by
  intro h
  have h2 := List.isPrefixOf_iff_prefix.mp h
  rw [fence_def, List.cons_prefix_cons] at h2
  exact absurd h2.1 (by decide)

/-- `specWordPairs` has one record per input element. -/
theorem specWordPairs_length (now : Nat) :
    ∀ (elems : List Json) (i : Nat), (specWordPairs now i elems).length = elems.length
  | [], _ => rfl
  | p :: rest, i => by
    simp [specWordPairs, specWordPairs_length now rest (i + 1)]

/-- On a parsed array with no `null` element, the runtime `map` produces
exactly the spec-side record list. -/
theorem buildPairs_eq_spec (now : Nat) :
    ∀ (elems : List Json), Json.null ∉ elems →
      ∀ i, buildPairs now i elems = .ok (specWordPairs now i elems) := by
  intro elems
  induction elems with
  | nil => intro _ _; rfl
  | cons p rest ih =>
    intro h i
    have hp : p ≠ Json.null := fun hq => h (hq ▸ List.mem_cons_self _ _)
    have hrest : Json.null ∉ rest := fun hq => h (List.mem_cons_of_mem _ hq)
    cases p <;>
      first
      | exact absurd rfl hp
      | simp [buildPairs, ih hrest (i + 1), specWordPairs]

/-- On a parsed array containing a `null` element, the runtime `map`
throws a `TypeError` (reading `.en` on `null`), whatever elements precede
it, so no record list is produced. -/
theorem buildPairs_null_throws (now : Nat) :
    ∀ (elems : List Json), Json.null ∈ elems →
      ∀ i, buildPairs now i elems = .error .typeError := by
  intro elems
  induction elems with
  | nil => intro h; exact absurd h (List.not_mem_nil _)
  | cons p rest ih =>
    intro h i
    by_cases hp : p = Json.null
    · subst hp; rfl
    · have hmem : Json.null ∈ rest := by
        rcases List.mem_cons.mp h with h1 | h1
        · exact absurd h1.symm hp
        · exact h1
      have hrec := ih hmem (i + 1)
      cases p <;>
        first
        | exact absurd rfl hp
        | simp [buildPairs, hrec]

/-! ## Claim theorems -/

/-- C1: the dispatcher resolves the effective credential by preferring the
user-supplied key from settings over the process-level default, and when
neither is present it fails immediately with the fixed
"credential not configured" error message; the HTTP-POST and native-call
branches are unreachable in that case. -/
theorem C1_credential_resolution (prompt : String) (s : AppSettings)
    (env : Option String) (hasSchema : Bool) :
    (s.customApiKey ≠ "" → effectiveApiKey s env = s.customApiKey) ∧
    (s.customApiKey = "" → effectiveApiKey s env = env.getD "") ∧
    (s.customApiKey = "" → env.getD "" = "" →
      callAiRoute prompt s env hasSchema = .configError configErrMsg ∧
      (callAiRoute prompt s env hasSchema).isPost = false ∧
      (callAiRoute prompt s env hasSchema).isNative = false) := by
  refine ⟨?_, ?_, ?_⟩
  · intro h
    unfold effectiveApiKey jsOr jsOrOpt
    rw [if_neg h, if_neg h]
  · intro h
    unfold effectiveApiKey jsOr jsOrOpt
    rw [if_pos h]
    cases env with
    | none => simp
    | some k => by_cases hk : k = "" <;> simp [hk]
  · intro h1 h2
    have hkey : effectiveApiKey s env = "" := by
      unfold effectiveApiKey jsOr jsOrOpt
      rw [if_pos h1]
      cases env with
      | none => simp
      | some k =>
        simp only [Option.getD_some] at h2
        simp [h2]
    refine ⟨?_, ?_, ?_⟩ <;>
      simp [callAiRoute, hkey, Dispatch.isPost, Dispatch.isNative]

/-- C1 witness: with an empty settings key and no process default, the
dispatcher at a concrete input yields the configuration error and reaches
neither the POST nor the native branch. -/
theorem C1_witness :
    callAiRoute "hello" ⟨"", "", "", false, "", 0, 0, 0⟩ none false =
      .configError configErrMsg ∧
    (callAiRoute "hello" ⟨"", "", "", false, "", 0, 0, 0⟩ none false).isPost = false ∧
    (callAiRoute "hello" ⟨"", "", "", false, "", 0, 0, 0⟩ none false).isNative = false :=
  (C1_credential_resolution "hello" ⟨"", "", "", false, "", 0, 0, 0⟩ none false).2.2 rfl rfl

/-- C2: a resolved credential starting with the OpenAI prefix makes the
dispatcher issue exactly the single POST to
`{baseUrl}/v1/chat/completions` (never the native call); any other
credential makes it issue only the native call (never the POST). -/
theorem C2_prefix_routing (prompt : String) (s : AppSettings)
    (env : Option String) (hasSchema : Bool)
    (hkey : effectiveApiKey s env ≠ "") :
    (jsStartsWith (effectiveApiKey s env) "sk-" = true →
      callAiRoute prompt s env hasSchema =
        .openaiPost (requestUrl s.baseUrl) (effectiveApiKey s env) s.modelName
          (if hasSchema then prompt ++ jsonInstruction else prompt) hasSchema ∧
      (callAiRoute prompt s env hasSchema).isNative = false) ∧
    (jsStartsWith (effectiveApiKey s env) "sk-" = false →
      callAiRoute prompt s env hasSchema =
        .nativeCall (jsOr s.modelName "gemini-3-flash-preview") prompt hasSchema ∧
      (callAiRoute prompt s env hasSchema).isPost = false) := by
  constructor
  · intro hsk
    constructor <;> simp [callAiRoute, hkey, hsk, Dispatch.isNative]
  · intro hsk
    constructor <;> simp [callAiRoute, hkey, hsk, Dispatch.isPost]

/-- C2 witness: routing at concrete credentials of each shape. -/
theorem C2_witness :
    callAiRoute "p" ⟨"", "sk-key", "gpt", false, "", 0, 0, 0⟩ none true =
      .openaiPost (requestUrl "") "sk-key" "gpt" ("p" ++ jsonInstruction) true ∧
    callAiRoute "p" ⟨"", "AIzaKey", "", false, "", 0, 0, 0⟩ none false =
      .nativeCall "gemini-3-flash-preview" "p" false := by
  constructor
  · exact ((C2_prefix_routing "p" ⟨"", "sk-key", "gpt", false, "", 0, 0, 0⟩ none true
      (by decide)).1 (by decide)).1
  · exact ((C2_prefix_routing "p" ⟨"", "AIzaKey", "", false, "", 0, 0, 0⟩ none false
      (by decide)).2 (by decide)).1

/-- C3 counterexample: a 401 response whose body parses with an
`error.message` field holding the empty string does not fail with that
message (the empty string); JavaScript `||` treats it as falsy and the
generic message is thrown instead. -/
theorem C3_cex :
    httpFailMsg 401 (some (some "")) ≠ "" ∧
    httpFailMsg 401 (some (some "")) = "请求失败: 401" := by
  constructor
  · decide
  · decide

/-- C3 (amended): on a non-success HTTP response with any status, a parsed
body with a non-empty `error.message` yields exactly that message; a
parsed body whose `error.message` is the empty string, a parsed body
without a usable message, and an unparseable body all yield a generic
message containing the decimal status code. -/
theorem C3_http_error_message (status : Nat) (m : String) (hm : m ≠ "") :
    httpFailMsg status (some (some m)) = m ∧
    (Nat.repr status).data <:+: (httpFailMsg status (some (some ""))).data ∧
    (Nat.repr status).data <:+: (httpFailMsg status none).data ∧
    (Nat.repr status).data <:+: (httpFailMsg status (some none)).data := by
  have hne : ("HTTP " ++ Nat.repr status) ≠ "" := by
    intro h
    have h2 := congrArg String.data h
    rw [String.data_append] at h2
    simp at h2
  refine ⟨?_, ?_, ?_, ?_⟩
  · simp [httpFailMsg, hm]
  · have h3 : httpFailMsg status (some (some "")) = "请求失败: " ++ Nat.repr status := by
      simp [httpFailMsg]
    rw [h3, String.data_append]
    exact (List.suffix_append _ _).isInfix
  · have h3 : httpFailMsg status none = "HTTP " ++ Nat.repr status := by
      simp [httpFailMsg, hne]
    rw [h3, String.data_append]
    exact (List.suffix_append _ _).isInfix
  · have h3 : httpFailMsg status (some none) = "请求失败: " ++ Nat.repr status := by
      simp [httpFailMsg]
    rw [h3, String.data_append]
    exact (List.suffix_append _ _).isInfix

/-- C3 witness: the amended theorem at status 500, with the body of the
spec's example and with the empty-message body. -/
theorem C3_witness :
    httpFailMsg 500 (some (some "invalid key")) = "invalid key" ∧
    (Nat.repr 500).data <:+: (httpFailMsg 500 (some (some ""))).data ∧
    (Nat.repr 500).data <:+: (httpFailMsg 500 none).data :=
  ⟨(C3_http_error_message 500 "invalid key" (by decide)).1,
   (C3_http_error_message 500 "invalid key" (by decide)).2.1,
   (C3_http_error_message 500 "invalid key" (by decide)).2.2.1⟩

/-- C10 counterexample: the base URL "/" ends in exactly one slash, but the
URL built from it differs from the URL built from the empty remainder
(which falls back to the default base). -/
theorem C10_cex :
    jsEndsWith "/" "/" = true ∧ requestUrl "/" ≠ requestUrl "" := by
  constructor
  · decide
  · decide

/-- C10 (amended): the request URL removes at most one trailing slash and
appends the fixed path: for every non-empty base URL not itself ending in
a slash, appending a slash does not change the resulting URL, and the
empty base URL falls back to the default `https://api.openai.com`. -/
theorem C10_trailing_slash (b : String) (hb : b ≠ "")
    (hs : jsEndsWith b "/" = false) :
    requestUrl (b ++ "/") = requestUrl b ∧
    requestUrl "" = "https://api.openai.com/v1/chat/completions" := by
  constructor
  · have hne : b ++ "/" ≠ "" := by
      intro h
      have h2 := congrArg String.data h
      rw [String.data_append] at h2
      simp at h2
    have hend : jsEndsWith (b ++ "/") "/" = true := by
      unfold jsEndsWith
      rw [String.data_append]
      exact List.isSuffixOf_iff_suffix.mpr (List.suffix_append _ _)
    have hdl : jsDropLast (b ++ "/") = b := by
      apply String.ext
      show (b ++ "/").data.dropLast = b.data
      rw [String.data_append]
      exact List.dropLast_concat
    simp [requestUrl, jsOr, hne, hb, hend, hs, hdl]
  · decide

/-- C10 witness: the amended theorem at a concrete proxy base URL. -/
theorem C10_witness :
    requestUrl ("https://my.proxy" ++ "/") = requestUrl "https://my.proxy" ∧
    requestUrl "" = "https://api.openai.com/v1/chat/completions" :=
  C10_trailing_slash "https://my.proxy" (by decide) (by decide)

/-- C4: for a payload containing no fence marker, the normalizer yields the
same string on the fenced wrapping as on the bare payload, and on the bare
payload it is a no-op up to whitespace trimming; hence fenced and unfenced
responses parse identically. -/
theorem C4_fenced_equals_bare (s : String) (h : ¬ fence <:+: s.data) :
    cleanJsonResponse ("```json\n" ++ s ++ "\n```") = cleanJsonResponse s ∧
    cleanJsonResponse s = jsTrimS s := by
  have hJ : ¬ fenceJson <:+: s.data := fenceJson_none_within h
  have r1 : removeAll fenceJson s.data = s.data := removeAll_of_none_within hJ
  have r2 : removeAll fence s.data = s.data := removeAll_of_none_within h
  have hclean : cleanJsonResponse s = jsTrimS s := by
    apply String.ext
    show trimList (removeAll fence (removeAll fenceJson s.data)) = trimList s.data
    rw [r1, r2]
  refine ⟨?_, hclean⟩
  rw [hclean]
  apply String.ext
  show trimList (removeAll fence
    (removeAll fenceJson ("```json\n" ++ s ++ "\n```").data)) = trimList s.data
  have hdata : ("```json\n" ++ s ++ "\n```").data
      = fenceJson ++ ('\n' :: (s.data ++ '\n' :: fence)) := by
    rw [String.data_append, String.data_append,
      show "```json\n".data = fenceJson ++ ['\n'] from rfl,
      show "\n```".data = '\n' :: fence from rfl]
    simp [List.append_assoc]
  rw [hdata,
    removeAll_consume_ne (by decide : fenceJson ≠ []),
    removeAll_cons_noMatch (fenceJson_noMatch_newline _),
    removeAll_append_sep (by decide : ('\n' : Char) ∉ fenceJson) hJ,
    show removeAll fenceJson ('\n' :: fence) = '\n' :: fence from rfl,
    removeAll_cons_noMatch (fence_noMatch_newline _),
    removeAll_append_sep (by decide : ('\n' : Char) ∉ fence) h,
    show removeAll fence ('\n' :: fence) = ['\n'] from rfl,
    trimList_cons_ws (by decide), trimList_append_ws (by decide)]

/-- C4 witness: the fenced and bare forms of a concrete fence-free payload
normalize identically. -/
theorem C4_witness :
    ¬ fence <:+: ("[1, 2]" : String).data ∧
    cleanJsonResponse ("```json\n" ++ "[1, 2]" ++ "\n```") = cleanJsonResponse "[1, 2]" :=
  ⟨by decide, (C4_fenced_equals_bare "[1, 2]" (by decide)).1⟩

/-- C5 counterexample: a fence opening with a language tag other than
`json` is not removed in full — for the tag `python` only the backticks
are deleted and the tag text survives, and for the tag `jsonc` the
json-tagged replacement additionally eats the `json` prefix of the tag,
leaving `c`.  In neither case is the normalized result the bare payload. -/
theorem C5_cex :
    cleanJsonResponse "```python\n[]\n```" = "python\n[]" ∧
    cleanJsonResponse "```python\n[]\n```" ≠ "[]" ∧
    cleanJsonResponse "```jsonc\n[]\n```" = "c\n[]" ∧
    cleanJsonResponse "```jsonc\n[]\n```" ≠ "[]" := by
  refine ⟨rfl, by decide, rfl, by decide⟩

/-- C5 (amended): the normalizer removes every occurrence of the
json-tagged opening marker and every occurrence of the bare marker, and
trims surrounding whitespace before JSON parsing; consequently the output
contains no occurrence of either marker and is fully trimmed.  A fence
opened with another language tag need not be removed in full (the
counterexample: `python` leaves `python`, `jsonc` leaves `c`). -/
theorem C5_fence_removal (s : String) :
    ¬ fence <:+: (cleanJsonResponse s).data ∧
    ¬ fenceJson <:+: (cleanJsonResponse s).data ∧
    jsTrimS (cleanJsonResponse s) = cleanJsonResponse s := by
  refine ⟨clean_no_fence s, fenceJson_none_within (clean_no_fence s), ?_⟩
  exact congrArg String.mk (clean_trimmed s)

/-- C8: the fence-stripping normalizer is idempotent — after one
application no three consecutive backticks remain and the result is
already trimmed, so a second application changes nothing. -/
theorem C8_idempotent (s : String) :
    cleanJsonResponse (cleanJsonResponse s) = cleanJsonResponse s := by
  have h := clean_no_fence s
  have hJ := fenceJson_none_within h
  show String.mk (trimList (removeAll fence
    (removeAll fenceJson (cleanJsonResponse s).data))) = cleanJsonResponse s
  rw [removeAll_of_none_within hJ, removeAll_of_none_within h]
  exact congrArg String.mk (clean_trimmed s)

/-- C6: when the fence-stripped remainder is not syntactically valid JSON,
each fetch wrapper propagates a parse error and yields no partial
structure. -/
theorem C6_parse_error_propagates (text : String) (now : Nat) :
    (jsonParse (cleanJsonResponse (jsOr text "[]")) = none →
      fetchWordPairs text now = .error .parseError ∧
      fetchContextQuestions text = .error .parseError) ∧
    (jsonParse (cleanJsonResponse (jsOr text "\x7b\x7d")) = none →
      fetchGrammarData text = .error .parseError) := by
  constructor
  · intro h
    constructor
    · simp [fetchWordPairs, h]
    · simp [fetchContextQuestions, h]
  · intro h
    simp [fetchGrammarData, h]

/-- C6 witness: a truncated array fails to parse and all three wrappers
propagate the error. -/
theorem C6_witness :
    jsonParse (cleanJsonResponse (jsOr "[\x7b\"en\":" "[]")) = none ∧
    jsonParse (cleanJsonResponse (jsOr "[\x7b\"en\":" "\x7b\x7d")) = none ∧
    fetchWordPairs "[\x7b\"en\":" 3 = .error .parseError ∧
    fetchContextQuestions "[\x7b\"en\":" = .error .parseError ∧
    fetchGrammarData "[\x7b\"en\":" = .error .parseError := by
  refine ⟨rfl, rfl, ?_, ?_, ?_⟩
  · exact ((C6_parse_error_propagates "[\x7b\"en\":" 3).1 rfl).1
  · exact ((C6_parse_error_propagates "[\x7b\"en\":" 3).1 rfl).2
  · exact (C6_parse_error_propagates "[\x7b\"en\":" 3).2 rfl

/-- C7 counterexample: `[null]` is a successfully parsed response array,
yet `fetchWordPairs` returns no list at all — reading `.en` on the `null`
element throws a `TypeError`. -/
theorem C7_cex :
    jsonParse (cleanJsonResponse (jsOr "[null]" "[]")) = some (Json.arr [Json.null]) ∧
    fetchWordPairs "[null]" 0 = .error .typeError := by
  constructor
  · rfl
  · rfl

/-- C7 (amended): for every successfully parsed response array, if none of
its elements is `null` then `fetchWordPairs` returns the list with one
record per element, in order, whose `en`/`cn` are the element's fields
unchanged and whose `id` is synthesized purely from the element index and
the timestamp (hence not unique across invocations); if some element is
`null`, the call instead throws a `TypeError` and returns no list. -/
theorem C7_wordpairs_shape (text : String) (now : Nat) (elems : List Json)
    (h1 : jsonParse (cleanJsonResponse (jsOr text "[]")) = some (Json.arr elems)) :
    (Json.null ∉ elems →
      fetchWordPairs text now = .ok (specWordPairs now 0 elems) ∧
      (specWordPairs now 0 elems).length = elems.length) ∧
    (Json.null ∈ elems → fetchWordPairs text now = .error .typeError) := by
  constructor
  · intro h2
    constructor
    · simp only [fetchWordPairs, h1]
      exact buildPairs_eq_spec now elems h2 0
    · exact specWordPairs_length now elems 0
  · intro h2
    simp only [fetchWordPairs, h1]
    exact buildPairs_null_throws now elems h2 0

/-- C7 witness: the amended theorem at the spec's own example response on
the null-free branch, and at a two-element array with a trailing `null` on
the throwing branch. -/
theorem C7_witness :
    (fetchWordPairs "[\x7b\"en\":\"cat\",\"cn\":\"猫\"\x7d]" 7 =
      .ok (specWordPairs 7 0 [Json.obj [("en", Json.str "cat"), ("cn", Json.str "猫")]]) ∧
    (specWordPairs 7 0 [Json.obj [("en", Json.str "cat"), ("cn", Json.str "猫")]]).length = 1) ∧
    fetchWordPairs "[1, null]" 7 = .error .typeError :=
  ⟨(C7_wordpairs_shape "[\x7b\"en\":\"cat\",\"cn\":\"猫\"\x7d]" 7
      [Json.obj [("en", Json.str "cat"), ("cn", Json.str "猫")]] rfl).1 (by simp),
   (C7_wordpairs_shape "[1, null]" 7 [Json.num "1", Json.null] rfl).2 (by simp)⟩

/-- C9: an absent or empty native `text` field makes the dispatcher return
the empty string, and on an empty response text the wrappers substitute
`[]` (resp. `\x7b\x7d`) before parsing, so they return the empty list
(resp. the empty record) instead of failing. -/
theorem C9_empty_response (now : Nat) :
    nativeText none = "" ∧
    nativeText (some "") = "" ∧
    fetchWordPairs "" now = .ok [] ∧
    fetchContextQuestions "" = .ok (.arr []) ∧
    fetchGrammarData "" = .ok (.obj []) :=
  ⟨rfl, rfl, rfl, rfl, rfl⟩
